import Mathlib

/-
  Verification of the eilos runtime context (struct/RuntimeContext.ts) and
  of the CLI entry point (src/entry-cli.ts) against the repository
  specification.

  JavaScript values are modelled by the inductive `JVal`: null, undefined,
  booleans, numbers (as integers — every value appearing in the claims is a
  small integer), strings, arrays (as lists) and plain objects (as
  association lists in insertion order; JavaScript objects have distinct
  keys, which theorems assume through explicit `keysNodup` hypotheses where
  the distinction matters).
-/

namespace Eilos

inductive JVal where
  | null : JVal
  | undefined : JVal
  | bool : Bool → JVal
  | num : Int → JVal
  | str : String → JVal
  | arr : List JVal → JVal
  | obj : List (String × JVal) → JVal

/-- First-match lookup in an association list, mirroring JavaScript
property access `o[k]` on an object with (necessarily distinct) keys. -/
def jLookup {α : Type} : List (String × α) → String → Option α
  | [], _ => none
  | (k', v) :: rest, k => if k' = k then some v else jLookup rest k

/-- JavaScript property assignment `o[k] = v`: replaces the value of an
existing key in place (keeping its position) or appends a new key. -/
def setKey {α : Type} : List (String × α) → String → α → List (String × α)
  | [], k, v => [(k, v)]
  | (k', v') :: rest, k, v =>
    if k' = k then (k, v) :: rest else (k', v') :: setKey rest k v

/-- JavaScript truthiness of a value. -/
def truthy : JVal → Bool
  | .null => false
  | .undefined => false
  | .bool b => b
  | .num n => n != 0
  | .str s => s != ""
  | .arr _ => true
  | .obj _ => true

/-- The loose comparison `v == null`, true exactly for null and undefined. -/
def nullish : JVal → Bool
  | .null => true
  | .undefined => true
  | _ => false

/-- The check `record[k] == null` where an absent key reads as undefined. -/
def nullishOpt : Option JVal → Bool
  | none => true
  | some v => nullish v

/-- deepmerge's `isMergeableObject`: arrays and plain objects merge
recursively, everything else is taken verbatim from the source. -/
def isMergeableObject : JVal → Bool
  | .arr _ => true
  | .obj _ => true
  | _ => false

/-- Own enumerable entries of a value (`Object.keys` order): the entries of
an object, nothing for arrays and primitives as they occur in this code. -/
def getEntries : JVal → List (String × JVal)
  | .obj l => l
  | _ => []

/-- deepmerge's `propertyIsOnObject(target, key)`: `key in target`,
false for primitives (where the JavaScript helper catches the throw). -/
def jHasKey (t : JVal) (k : String) : Bool :=
  match t with
  | .obj l => (jLookup l k).isSome
  | _ => false

/-- Property read `t[k]` used by deepmerge on a target known (via
`jHasKey`) to hold the key; absent keys read as undefined. -/
def jGetD (t : JVal) (k : String) : JVal :=
  match t with
  | .obj l => (jLookup l k).getD .undefined
  | _ => .undefined

/-- Property read `t[k]` distinguishing an absent key (`none`) from a
stored value. -/
def jGet (t : JVal) (k : String) : Option JVal :=
  match t with
  | .obj l => jLookup l k
  | _ => none

/-- The repository's `overwriteMerge(destinationArray, sourceArray)`:
`[].concat(destinationArray, sourceArray)`, i.e. plain concatenation.
(The deepmerge library's default arrayMerge, in effect at the `exec` call
site, is `target.concat(source)` — the same concatenation.) -/
def overwriteMerge (destinationArray sourceArray : List JVal) : List JVal :=
  destinationArray ++ sourceArray

/-- The source-entry loop of deepmerge's `mergeObject`, with the recursive
merge passed in as `dm`: each source entry is assigned into the accumulated
destination; when the target also holds the key and the source value is
mergeable the two are merged recursively, otherwise the source value is
assigned verbatim. -/
def mergeIntoG (dm : JVal → JVal → JVal) (t : JVal)
    (acc : List (String × JVal)) :
    List (String × JVal) → List (String × JVal)
  | [] => acc
  | (k, sv) :: rest =>
    mergeIntoG dm t
      (setKey acc k
        (if jHasKey t k && isMergeableObject sv then dm (jGetD t k) sv
         else sv))
      rest

/-- Structural size of a value, used as recursion fuel for `deepmergeF`
(deepmerge recurses only into the source, so the source's size bounds the
recursion depth). -/
def jsize : JVal → Nat
  | .null => 1
  | .undefined => 1
  | .bool _ => 1
  | .num _ => 1
  | .str _ => 1
  | .arr l => 1 + (l.attach.map (fun x => jsize x.1)).sum
  | .obj l => 1 + (l.attach.map (fun x => jsize x.1.2)).sum
termination_by v => sizeOf v
decreasing_by
  · have h1 := List.sizeOf_lt_of_mem x.2
    simp only [JVal.arr.sizeOf_spec]
    omega
  · have h1 := List.sizeOf_lt_of_mem x.2
    have h2 : sizeOf x.1.2 < sizeOf x.1 := by
      cases x.1
      simp only [Prod.mk.sizeOf_spec]
      omega
    simp only [JVal.obj.sizeOf_spec]
    omega

/-- Fuel-indexed body of `deepmerge(target, source, { arrayMerge:
overwriteMerge })`: when source and target disagree on array-ness the
source wins; two arrays go through `overwriteMerge`; otherwise
`mergeObject` seeds the destination with the target's entries and folds
the source's entries over it (the branches for a primitive source are
unreachable from the repository's call sites but follow the library's
`mergeObject`, which then copies only the target's entries).  The fuel
only bounds the recursion depth; any fuel of at least `jsize source`
computes the merge in full (`deepmergeF_fuel_eq` below), so the fuel-zero
fallback is never reached from `deepmerge`. -/
def deepmergeF : Nat → JVal → JVal → JVal
  | 0, _, s => s
  | fuel + 1, t, s =>
    match s with
    | .arr b =>
      match t with
      | .arr a => .arr (overwriteMerge a b)
      | _ => .arr b
    | .obj sl =>
      match t with
      | .arr _ => .obj sl
      | _ => .obj (mergeIntoG (deepmergeF fuel) t (getEntries t) sl)
    | sv =>
      match t with
      | .arr _ => sv
      | _ => .obj (getEntries t)

/-- The `merge(target, source, ...)` call of RuntimeContext: `deepmergeF`
run with enough fuel for the whole source. -/
def deepmerge (t s : JVal) : JVal :=
  deepmergeF (jsize s) t s

/-- The instantiated source-entry loop of `mergeObject`, as it runs inside
`deepmerge`. -/
def mergeInto (t : JVal) (acc : List (String × JVal))
    (src : List (String × JVal)) : List (String × JVal) :=
  mergeIntoG deepmerge t acc src

/-- The `Object.assign(target, source)` operation restricted to the entry lists that
occur in this code: every source entry is assigned onto the target in
order.  (`Object.assign` would also copy the index entries of a primitive
string; no call site of the repository passes one.) -/
def assignEntries (base src : List (String × JVal)) :
    List (String × JVal) :=
  src.foldl (fun acc kv => setKey acc kv.1 kv.2) base

/-- The `Object.assign({}, defaults, value)` call of `getOption`. -/
def objAssign (defaults v : JVal) : JVal :=
  .obj (assignEntries (assignEntries [] (getEntries defaults)) (getEntries v))

/-- Keys of an association list are pairwise distinct — true of every list
that denotes a JavaScript object. -/
def keysNodup {α : Type} (l : List (String × α)) : Prop :=
  (l.map Prod.fst).Nodup

instance {α : Type} (l : List (String × α)) : Decidable (keysNodup l) :=
  inferInstanceAs (Decidable (l.map Prod.fst).Nodup)

/-- The state of a `RuntimeContext` instance: environment snapshot,
directory alias table `_dir`, configuration tree `_config`, config-file
registry `_config_files` (a registered JavaScript `null` is the
"requested but missing" placeholder; an absent key reads as undefined),
the `_usedFiles` insertion-ordered set and the argument store `_args`. -/
structure Ctx where
  env : List (String × String)
  dir : List (String × String)
  config : JVal
  configFiles : List (String × JVal)
  usedFiles : List String
  args : List (String × JVal)

/-- The constructor `new RuntimeContext(env, dir)`: empty configuration,
empty file registry, empty argument store, empty used-file set. -/
def initCtx (env dir : List (String × String)) : Ctx :=
  { env := env, dir := dir, config := .obj [], configFiles := [],
    usedFiles := [], args := [] }

/-- Method `getMode()`: `this._env.NODE_ENV || "development"` (an absent or empty
NODE_ENV is falsy and falls back to "development"). -/
def getMode (c : Ctx) : String :=
  match jLookup c.env "NODE_ENV" with
  | some s => if s = "" then "development" else s
  | none => "development"

/-- Method `isDevelop()`. -/
def isDevelop (c : Ctx) : Bool :=
  getMode c = "development"

/-- Method `isProduction()`. -/
def isProduction (c : Ctx) : Bool :=
  getMode c = "production"

/-- Method `updateArgs(args)`: `Object.assign(this._args, args)` — a shallow
merge, every key of the bag overwrites directly. -/
def updateArgs (c : Ctx) (args : List (String × JVal)) : Ctx :=
  { c with args := assignEntries c.args args }

/-- Method `getArg(name, defaultValue)`: `this._args[name] == null ?
defaultValue : this._args[name]` — a strict nullish check, so stored
`0`, `false` and `""` are returned as-is. -/
def getArg (c : Ctx) (name : String) (defaultValue : JVal) : JVal :=
  match jLookup c.args name with
  | some v => if nullish v then defaultValue else v
  | none => defaultValue

/-- Method `setDirectory(alias, path)`: unconditional assignment into `_dir`
(the `this` return value only enables call chaining). -/
def setDirectory (c : Ctx) (als path : String) : Ctx :=
  { c with dir := setKey c.dir als path }

/-- Method `getDirectory(alias)`: throws when the alias reads as nullish (for a
string-valued table: when it is absent), otherwise returns the stored
path verbatim. -/
def getDirectory (c : Ctx) (als : String) : Except String String :=
  match jLookup c.dir als with
  | some p => .ok p
  | none => .error ("Directory \"" ++ als ++ "\" was not defined")

/-- Method `updateOptions(obj)`: `this._config = merge(this._config, obj,
{ arrayMerge: overwriteMerge })`. -/
def updateOptions (c : Ctx) (obj : JVal) : Ctx :=
  { c with config := deepmerge c.config obj }

/-- A plain object in the sense of `getOption`'s test
`typeof value === "object" && value && !Array.isArray(value)`
(null fails the truthiness conjunct, arrays the last one). -/
def isPlainObj : JVal → Bool
  | .obj _ => true
  | _ => false

/-- Method `getOption(name, defaults)`: a stored plain object is overlaid onto
the defaults with `Object.assign({}, defaults, value)`; any other stored
value is returned when truthy, with `defaults` substituted when it is
falsy (so stored `0`, `""` and `false` yield the default) or absent. -/
def getOption (c : Ctx) (name : String) (defaults : JVal) : JVal :=
  match jGet c.config name with
  | some v => if isPlainObj v then objAssign defaults v
              else if truthy v then v else defaults
  | none => defaults

/-- The `path.join(directory, name)` call as it occurs in `getConfigFilePath`:
the two segments joined by the separator (further `path.join`
normalisation never fires on the alias-plus-plain-name inputs used
here). -/
def pathJoin (a b : String) : String :=
  a ++ "/" ++ b

/-- The `this._usedFiles.add(name)` call: insertion-ordered set addition. -/
def addUsed (c : Ctx) (name : String) : Ctx :=
  if name ∈ c.usedFiles then c
  else { c with usedFiles := c.usedFiles ++ [name] }

/-- Method `getConfigFilePath(name)`: records the name as used, stores the null
placeholder when no definition is registered, and only then resolves the
`dist.config` alias — so the two mutations survive even when that
resolution throws.  The pair carries the thrown-or-returned value
together with the context state after the call. -/
def getConfigFilePath (c : Ctx) (name : String) :
    Except String String × Ctx :=
  let c1 := addUsed c name
  let c2 :=
    if nullishOpt (jLookup c1.configFiles name) then
      { c1 with configFiles := setKey c1.configFiles name .null }
    else c1
  match getDirectory c2 "dist.config" with
  | .ok d => (.ok (pathJoin d name), c2)
  | .error e => (.error e, c2)

/-- Method `getConfigFileDefinition(name)`: records the name as used and throws
the TypeError `Configuration file '<name>' was not defined` whenever the
stored definition is falsy — which covers the absent key, the null
placeholder, and any falsy registered definition. -/
def getConfigFileDefinition (c : Ctx) (name : String) :
    Except String JVal × Ctx :=
  let c1 := addUsed c name
  match jLookup c1.configFiles name with
  | some v =>
    if truthy v then (.ok v, c1)
    else (.error ("Configuration file '" ++ name ++ "' was not defined"), c1)
  | none =>
    (.error ("Configuration file '" ++ name ++ "' was not defined"), c1)

/-- Method `getConfigFileContents(name)`: records the name as used, resolves the
definition and then the path, and hands both to the external
content-materialisation collaborator `getFileContents` (utils/FileUtil,
outside the modelled sources); the success value is the
definition/path pair passed to that collaborator. -/
def getConfigFileContents (c : Ctx) (name : String) :
    Except String (JVal × String) × Ctx :=
  let c1 := addUsed c name
  match getConfigFileDefinition c1 name with
  | (.error e, c2) => (.error e, c2)
  | (.ok d, c2) =>
    match getConfigFilePath c2 name with
    | (.error e, c3) => (.error e, c3)
    | (.ok p, c3) => (.ok (d, p), c3)

/-- Method `getUsedConfigFiles()`: `Array.from(this._usedFiles)`, the recorded
names in first-observed order. -/
def getUsedConfigFiles (c : Ctx) : List String :=
  c.usedFiles

/-- Method `setConfigFile(name, contents)`: unconditional registration. -/
def setConfigFile (c : Ctx) (name : String) (contents : JVal) : Ctx :=
  { c with configFiles := setKey c.configFiles name contents }

/-- One state-affecting operation on a `RuntimeContext` (the remaining
methods — `getArg`, `getOption`, `getDirectory`, `getUsedConfigFiles`,
`getMode`, the resolvers and `exec` — take the context and return a value
without producing a new state). -/
inductive Op where
  | updateArgs (args : List (String × JVal)) : Op
  | setDirectory (als path : String) : Op
  | updateOptions (obj : JVal) : Op
  | setConfigFile (name : String) (contents : JVal) : Op
  | getConfigFilePath (name : String) : Op
  | getConfigFileDefinition (name : String) : Op
  | getConfigFileContents (name : String) : Op

/-- The context state after running one operation. -/
def applyOp (c : Ctx) : Op → Ctx
  | .updateArgs l => updateArgs c l
  | .setDirectory a p => setDirectory c a p
  | .updateOptions o => updateOptions c o
  | .setConfigFile n v => setConfigFile c n v
  | .getConfigFilePath n => (getConfigFilePath c n).2
  | .getConfigFileDefinition n => (getConfigFileDefinition c n).2
  | .getConfigFileContents n => (getConfigFileContents c n).2

/-- The config-file name an operation passes to one of the three
accessors, if any. -/
def opUse : Op → Option String
  | .getConfigFilePath n => some n
  | .getConfigFileDefinition n => some n
  | .getConfigFileContents n => some n
  | _ => none

/-- The environment snapshot as the JavaScript object handed to the
process-execution primitive. -/
def envObj (e : List (String × String)) : JVal :=
  .obj (e.map (fun kv => (kv.1, .str kv.2)))

/-- The defaults object built inside `exec` once the `project` alias has
resolved to `projectDir`: `{ localDir, preferLocal: true, stdio:
"inherit", env: this._env }`. -/
def execDefaults (c : Ctx) (projectDir : String) : JVal :=
  .obj [("localDir", .str projectDir), ("preferLocal", .bool true),
        ("stdio", .str "inherit"), ("env", envObj c.env)]

/-- The observable steps of one `exec` call, in order. -/
inductive ExecEvent where
  | log (level msg : String) : ExecEvent
  | spawn (binary : String) (args : List String) (options : JVal) : ExecEvent

/-- Method `exec(binary, args, options)`: logs the command line at debug level,
then builds the spawn request `execa(binary, args, merge(defaults,
options || {}))` — the defaults deep-merged (library default arrayMerge)
with the caller's options.  Resolving the `project` alias for the
defaults object throws when the alias is unset; the debug log has
already been emitted at that point. -/
def exec (c : Ctx) (binary : String) (args : Option (List String))
    (options : Option JVal) : List ExecEvent × Except String Unit :=
  let logEvent := ExecEvent.log "debug"
    ("Invoking " ++ binary ++ " " ++ String.intercalate " " (args.getD []))
  match getDirectory c "project" with
  | .error e => ([logEvent], .error e)
  | .ok p =>
    ([logEvent,
      ExecEvent.spawn binary (args.getD [])
        (deepmerge (execDefaults c p) (options.getD (.obj [])))],
     .ok ())

/-- Outcome of one lifecycle hook of an action: absent, resolving, or
rejecting with a message. -/
structure ActionOutcomes where
  preRun : Option (Except String Unit)
  run : Except String Unit
  postRun : Option (Except String Unit)

/-- Which hooks a lifecycle run actually invoked. -/
structure LifecycleTrace where
  preInvoked : Bool
  runInvoked : Bool
  postInvoked : Bool

/-- Modelled from the spec: the action lifecycle executor (`invokeAction`
in src/actions, whose implementation is not among the provided sources;
only its caller in src/entry-cli.ts is).  Per the specification, "each
stage executes only if defined (PreRun and PostRun are optional; Run is
mandatory); a rejection/failure at any stage transitions directly to
Failed, skips remaining stages, and propagates the failure to the
invoking layer". -/
def invokeAction (a : ActionOutcomes) : LifecycleTrace × Except String Unit :=
  match a.preRun with
  | some (.error e) =>
    ({ preInvoked := true, runInvoked := false, postInvoked := false },
     .error e)
  | _ =>
    match a.run with
    | .error e =>
      ({ preInvoked := a.preRun.isSome, runInvoked := true,
         postInvoked := false }, .error e)
    | .ok _ =>
      match a.postRun with
      | some r =>
        ({ preInvoked := a.preRun.isSome, runInvoked := true,
           postInvoked := true }, r)
      | none =>
        ({ preInvoked := a.preRun.isSome, runInvoked := true,
           postInvoked := false }, .ok ())

/-- The `.then`/`.catch` handler pair around `invokeAction` in the CLI
entry point (src/src/entry-cli.ts:81-88): a resolved action logs success
and lets the process exit normally (no explicit exit code), a rejected
action logs the failure and calls `process.exit(1)`. -/
def cliExitCode (r : Except String Unit) : Option Nat :=
  match r with
  | .ok _ => none
  | .error _ => some 1

/-- One CLI action invocation: the lifecycle trace together with the
explicit exit code, if any. -/
def cliInvoke (a : ActionOutcomes) : LifecycleTrace × Option Nat :=
  ((invokeAction a).1, cliExitCode (invokeAction a).2)

/-! Association-list lemmas. -/

theorem jLookup_setKey_self {α : Type} (l : List (String × α)) (k : String)
    (v : α) : jLookup (setKey l k v) k = some v := by
  induction l with
  | nil => simp [setKey, jLookup]
  | cons kv rest ih =>
    obtain ⟨k0, v0⟩ := kv
    by_cases h : k0 = k
    · simp [setKey, jLookup, h]
    · simp [setKey, jLookup, h, ih]

theorem jLookup_setKey_ne {α : Type} (l : List (String × α)) {k k' : String}
    (v : α) (h : k' ≠ k) : jLookup (setKey l k v) k' = jLookup l k' := by
  have h2 : ¬(k = k') := fun hk => h hk.symm
  induction l with
  | nil => simp [setKey, jLookup, h2]
  | cons kv rest ih =>
    obtain ⟨k0, v0⟩ := kv
    by_cases hk : k0 = k
    · simp [setKey, jLookup, hk, h2]
    · simp [setKey, jLookup, hk, ih]

theorem jLookup_eq_none_iff {α : Type} (l : List (String × α)) (k : String) :
    jLookup l k = none ↔ k ∉ l.map Prod.fst := by
  induction l with
  | nil => simp [jLookup]
  | cons kv rest ih =>
    obtain ⟨k0, v0⟩ := kv
    by_cases h : k0 = k
    · simp [jLookup, h]
    · have h2 : ¬(k = k0) := fun hk => h hk.symm
      simp [jLookup, h, ih, h2]

theorem mem_keys_of_jLookup {α : Type} {l : List (String × α)} {k : String}
    {v : α} (h : jLookup l k = some v) : k ∈ l.map Prod.fst := by
  by_contra hmem
  rw [← jLookup_eq_none_iff] at hmem
  rw [h] at hmem
  exact Option.noConfusion hmem

/-! Fuel lemmas for the merge engine. -/

theorem jsize_pos (v : JVal) : 0 < jsize v := by
  cases v <;> simp [jsize]

theorem jsize_lt_of_mem {l : List (String × JVal)} {k : String} {sv : JVal}
    (h : (k, sv) ∈ l) : jsize sv < jsize (.obj l) := by
  have hmem : jsize sv ∈ l.attach.map (fun x => jsize x.1.2) :=
    List.mem_map.mpr ⟨⟨(k, sv), h⟩, List.mem_attach _ _, rfl⟩
  have hle := List.single_le_sum
    (l := l.attach.map (fun x => jsize x.1.2)) (fun x _ => Nat.zero_le x)
    _ hmem
  simp only [jsize]
  omega

theorem mergeIntoG_congr {dm dm' : JVal → JVal → JVal} (t : JVal)
    {src : List (String × JVal)}
    (h : ∀ k sv, (k, sv) ∈ src → dm (jGetD t k) sv = dm' (jGetD t k) sv) :
    ∀ acc, mergeIntoG dm t acc src = mergeIntoG dm' t acc src := by
  induction src with
  | nil => intro acc; rfl
  | cons kv rest ih =>
    intro acc
    obtain ⟨k, sv⟩ := kv
    simp only [mergeIntoG]
    rw [h k sv (by simp)]
    exact ih (fun k' sv' hm => h k' sv' (List.mem_cons_of_mem _ hm)) _

theorem deepmergeF_fuel_eq : ∀ (n m : Nat) (t s : JVal),
    jsize s ≤ n → jsize s ≤ m → deepmergeF n t s = deepmergeF m t s := by
  intro n
  induction n with
  | zero =>
    intro m t s hn _
    have := jsize_pos s
    omega
  | succ n ih =>
    intro m t s hn hm
    cases m with
    | zero =>
      have := jsize_pos s
      omega
    | succ m =>
      cases s with
      | obj sl =>
        cases t <;> simp only [deepmergeF] <;>
          (refine congrArg JVal.obj (mergeIntoG_congr _ ?_ _)
           intro k sv hmem
           have hlt := jsize_lt_of_mem hmem
           exact ih m _ sv (by omega) (by omega))
      | arr b => cases t <;> rfl
      | null => cases t <;> rfl
      | undefined => cases t <;> rfl
      | bool b => cases t <;> rfl
      | num v => cases t <;> rfl
      | str v => cases t <;> rfl

theorem deepmerge_eq_deepmergeF {n : Nat} (t s : JVal) (h : jsize s ≤ n) :
    deepmerge t s = deepmergeF n t s :=
  deepmergeF_fuel_eq _ _ _ _ (Nat.le_refl _) h

/-! Unfolding equations for `deepmerge`, stated without fuel. -/

theorem deepmerge_arr_arr (a b : List JVal) :
    deepmerge (.arr a) (.arr b) = .arr (overwriteMerge a b) := by
  have h := jsize_pos (JVal.arr b)
  cases hs : jsize (JVal.arr b) with
  | zero => omega
  | succ n =>
    rw [deepmerge, hs]
    rfl

theorem deepmerge_obj_obj (tl sl : List (String × JVal)) :
    deepmerge (.obj tl) (.obj sl) = .obj (mergeInto (.obj tl) tl sl) := by
  have h := jsize_pos (JVal.obj sl)
  cases hs : jsize (JVal.obj sl) with
  | zero => omega
  | succ n =>
    rw [deepmerge, hs]
    simp only [deepmergeF, getEntries]
    refine congrArg JVal.obj (mergeIntoG_congr _ ?_ _)
    intro k sv hmem
    have hlt := jsize_lt_of_mem hmem
    rw [hs] at hlt
    exact deepmergeF_fuel_eq n (jsize sv) _ sv (by omega) (Nat.le_refl _)

theorem mergeInto_nil (t : JVal) (acc : List (String × JVal)) :
    mergeInto t acc [] = acc := rfl

theorem mergeInto_cons (t : JVal) (acc : List (String × JVal)) (k : String)
    (sv : JVal) (rest : List (String × JVal)) :
    mergeInto t acc ((k, sv) :: rest) =
      mergeInto t
        (setKey acc k
          (if jHasKey t k && isMergeableObject sv then deepmerge (jGetD t k) sv
           else sv)) rest := rfl

/-! Lookup characterisation of the `mergeObject` loop and of
`Object.assign`. -/

theorem mergeIntoG_lookup_not_mem (dm : JVal → JVal → JVal) (t : JVal)
    {src : List (String × JVal)} {k : String}
    (h : k ∉ src.map Prod.fst) :
    ∀ acc, jLookup (mergeIntoG dm t acc src) k = jLookup acc k := by
  induction src with
  | nil => intro acc; rfl
  | cons kv rest ih =>
    intro acc
    obtain ⟨k0, sv⟩ := kv
    simp only [List.map_cons, List.mem_cons] at h
    push_neg at h
    simp only [mergeIntoG]
    rw [ih h.2]
    exact jLookup_setKey_ne _ _ h.1

theorem mergeIntoG_lookup_mem (dm : JVal → JVal → JVal) (t : JVal)
    {src : List (String × JVal)} {k : String} {sv : JVal}
    (hnd : keysNodup src) (h : jLookup src k = some sv) :
    ∀ acc, jLookup (mergeIntoG dm t acc src) k =
      some (if jHasKey t k && isMergeableObject sv then dm (jGetD t k) sv
            else sv) := by
  induction src with
  | nil => intro acc; exact Option.noConfusion h
  | cons kv rest ih =>
    intro acc
    obtain ⟨k0, sv0⟩ := kv
    have hnd2 : (k0 :: rest.map Prod.fst).Nodup := by
      simpa [keysNodup] using hnd
    by_cases hk : k0 = k
    · subst hk
      simp only [jLookup, if_pos rfl] at h
      obtain rfl : sv0 = sv := by injection h
      have hnot : k0 ∉ rest.map Prod.fst := (List.nodup_cons.mp hnd2).1
      simp only [mergeIntoG]
      rw [mergeIntoG_lookup_not_mem dm t hnot, jLookup_setKey_self]
    · simp only [jLookup, if_neg hk] at h
      have hnd' : keysNodup rest := (List.nodup_cons.mp hnd2).2
      simp only [mergeIntoG]
      exact ih hnd' h _

theorem assignEntries_cons (base : List (String × JVal)) (k : String)
    (v : JVal) (rest : List (String × JVal)) :
    assignEntries base ((k, v) :: rest) = assignEntries (setKey base k v) rest :=
  rfl

theorem assignEntries_lookup_not_mem {src : List (String × JVal)} {k : String}
    (h : k ∉ src.map Prod.fst) :
    ∀ base, jLookup (assignEntries base src) k = jLookup base k := by
  induction src with
  | nil => intro base; rfl
  | cons kv rest ih =>
    intro base
    obtain ⟨k0, v0⟩ := kv
    simp only [List.map_cons, List.mem_cons] at h
    push_neg at h
    rw [assignEntries_cons, ih h.2]
    exact jLookup_setKey_ne _ _ h.1

theorem assignEntries_lookup_mem {src : List (String × JVal)} {k : String}
    {v : JVal} (hnd : keysNodup src) (h : jLookup src k = some v) :
    ∀ base, jLookup (assignEntries base src) k = some v := by
  induction src with
  | nil => intro base; exact Option.noConfusion h
  | cons kv rest ih =>
    intro base
    obtain ⟨k0, v0⟩ := kv
    have hnd2 : (k0 :: rest.map Prod.fst).Nodup := by
      simpa [keysNodup] using hnd
    by_cases hk : k0 = k
    · subst hk
      simp only [jLookup, if_pos rfl] at h
      obtain rfl : v0 = v := by injection h
      have hnot : k0 ∉ rest.map Prod.fst := (List.nodup_cons.mp hnd2).1
      rw [assignEntries_cons, assignEntries_lookup_not_mem hnot,
        jLookup_setKey_self]
    · simp only [jLookup, if_neg hk] at h
      have hnd' : keysNodup rest := (List.nodup_cons.mp hnd2).2
      rw [assignEntries_cons]
      exact ih hnd' h _

theorem jGet_some {v : JVal} {k : String} {x : JVal}
    (h : jGet v k = some x) :
    ∃ l, v = JVal.obj l ∧ jLookup l k = some x := by
  cases v
  case obj l => exact ⟨l, rfl, h⟩
  all_goals exact absurd h (by simp [jGet])

theorem jGet_obj (l : List (String × JVal)) (k : String) :
    jGet (JVal.obj l) k = jLookup l k := rfl

theorem truthy_eq_false_of_nullish {v : JVal} (h : nullish v = true) :
    truthy v = false := by
  cases v <;> simp_all [nullish, truthy]

/-! State lemmas for the used-file set and the registry operations. -/

theorem addUsed_configFiles (c : Ctx) (n : String) :
    (addUsed c n).configFiles = c.configFiles := by
  simp only [addUsed]
  split <;> rfl

theorem addUsed_dir (c : Ctx) (n : String) :
    (addUsed c n).dir = c.dir := by
  simp only [addUsed]
  split <;> rfl

theorem mem_addUsed_self (c : Ctx) (n : String) :
    n ∈ (addUsed c n).usedFiles := by
  simp only [addUsed]
  split
  · assumption
  · simp

theorem mem_addUsed (c : Ctx) (n x : String) :
    x ∈ (addUsed c n).usedFiles ↔ x ∈ c.usedFiles ∨ x = n := by
  by_cases h : n ∈ c.usedFiles
  · simp only [addUsed, if_pos h]
    constructor
    · exact Or.inl
    · rintro (hx | rfl)
      · exact hx
      · exact h
  · simp only [addUsed, if_neg h]
    simp

theorem addUsed_nodup (c : Ctx) (n : String) (h : c.usedFiles.Nodup) :
    (addUsed c n).usedFiles.Nodup := by
  by_cases hn : n ∈ c.usedFiles
  · simpa only [addUsed, if_pos hn] using h
  · simp only [addUsed, if_neg hn]
    rw [List.nodup_append]
    refine ⟨h, List.nodup_singleton n, ?_⟩
    intro a ha hb
    simp only [List.mem_singleton] at hb
    subst hb
    exact hn ha

theorem addUsed_idem (c : Ctx) (n : String) :
    addUsed (addUsed c n) n = addUsed c n := by
  by_cases hn : n ∈ c.usedFiles <;> simp [addUsed, hn]

theorem getConfigFilePath_usedFiles (c : Ctx) (n : String) :
    (getConfigFilePath c n).2.usedFiles = (addUsed c n).usedFiles := by
  simp only [getConfigFilePath]
  split <;> split <;> rfl

theorem getConfigFileDefinition_state (c : Ctx) (n : String) :
    (getConfigFileDefinition c n).2 = addUsed c n := by
  simp only [getConfigFileDefinition]
  split
  · split <;> rfl
  · rfl

/-- The behaviour of `getConfigFileDefinition` when the stored definition
is falsy (absent key, null placeholder, or a falsy registered value). -/
theorem getConfigFileDefinition_falsy (c : Ctx) (n : String)
    (h : ∀ v, jLookup c.configFiles n = some v → truthy v = false) :
    getConfigFileDefinition c n =
      (.error ("Configuration file '" ++ n ++ "' was not defined"),
       addUsed c n) := by
  simp only [getConfigFileDefinition, addUsed_configFiles]
  cases hv : jLookup c.configFiles n with
  | none => rfl
  | some v => simp [h v hv]

theorem getConfigFileContents_usedFiles (c : Ctx) (n : String) :
    (getConfigFileContents c n).2.usedFiles = (addUsed c n).usedFiles := by
  simp only [getConfigFileContents]
  have hdef := getConfigFileDefinition_state (addUsed c n) n
  rw [addUsed_idem] at hdef
  cases h : getConfigFileDefinition (addUsed c n) n with
  | mk r c2 =>
    rw [h] at hdef
    have hc2 : c2 = addUsed c n := by simpa using hdef
    subst hc2
    cases r with
    | error e => simp
    | ok d =>
      have hpathU := getConfigFilePath_usedFiles (addUsed c n) n
      cases h2 : getConfigFilePath (addUsed c n) n with
      | mk r2 c3 =>
        rw [h2] at hpathU
        rw [addUsed_idem] at hpathU
        simp only [h2]
        cases r2 with
        | error e => simpa using hpathU
        | ok p => simpa using hpathU

/-! The claims. -/

/-- C1: for every two successive `updateOptions` calls whose partials both
hold an array under the same key, the resulting configuration stores,
under that key, the destination array's elements followed by the source
array's elements — no replacement, no deduplication (first conjunct: the
destination array `d` is whatever the configuration holds at the key
after the first call, the source array `b` comes from the second
partial); and the same concatenation happens for array-valued keys nested
one object level inside the merged partials (second conjunct). -/
theorem updateOptions_array_concat :
    (∀ (c : Ctx) (k : String) (d b : List JVal)
        (pl : List (String × JVal)),
        jGet c.config k = some (.arr d) →
        keysNodup pl → jLookup pl k = some (.arr b) →
        jGet (updateOptions c (.obj pl)).config k = some (.arr (d ++ b)))
    ∧
    (∀ (c : Ctx) (k k2 : String) (tl : List (String × JVal))
        (d b : List JVal) (pl sl : List (String × JVal)),
        jGet c.config k = some (.obj tl) → jLookup tl k2 = some (.arr d) →
        keysNodup pl → jLookup pl k = some (.obj sl) →
        keysNodup sl → jLookup sl k2 = some (.arr b) →
        (jGet (updateOptions c (.obj pl)).config k).bind
            (fun v => jGet v k2) = some (.arr (d ++ b))) := by
  constructor
  · intro c k d b pl h hnd hpl
    obtain ⟨cl, hcfg, hlk⟩ := jGet_some h
    simp only [updateOptions, hcfg, deepmerge_obj_obj, jGet, mergeInto]
    rw [mergeIntoG_lookup_mem deepmerge _ hnd hpl]
    have hhas : jHasKey (.obj cl) k = true := by
      simp [jHasKey, hlk]
    have hgetd : jGetD (.obj cl) k = .arr d := by
      simp [jGetD, hlk]
    simp [hhas, hgetd, isMergeableObject, deepmerge_arr_arr, overwriteMerge]
  · intro c k k2 tl d b pl sl h htl hnd hpl hnds hsl
    obtain ⟨cl, hcfg, hlk⟩ := jGet_some h
    have hhas : jHasKey (.obj cl) k = true := by
      simp [jHasKey, hlk]
    have hgetd : jGetD (.obj cl) k = .obj tl := by
      simp [jGetD, hlk]
    have hhas2 : jHasKey (.obj tl) k2 = true := by
      simp [jHasKey, htl]
    have hgetd2 : jGetD (.obj tl) k2 = .arr d := by
      simp [jGetD, htl]
    simp only [updateOptions, hcfg, deepmerge_obj_obj, mergeInto, jGet_obj]
    rw [mergeIntoG_lookup_mem deepmerge _ hnd hpl]
    simp [hhas, hgetd, isMergeableObject, deepmerge_obj_obj, mergeInto,
      jGet_obj]
    rw [mergeIntoG_lookup_mem deepmerge _ hnds hsl]
    simp [hhas2, hgetd2, isMergeableObject, deepmerge_arr_arr, overwriteMerge]

/-- Witness for C1: merging `{plugins: [1, 2]}` and then `{plugins: [3]}`
into a fresh context yields `plugins: [1, 2, 3]`, and the same example one
object level deep (`{x: {plugins: [1, 2]}}` then `{x: {plugins: [3]}}`)
yields `x.plugins: [1, 2, 3]`. -/
theorem updateOptions_array_concat_witness :
    jGet (updateOptions
        (updateOptions (initCtx [] [])
          (.obj [("plugins", .arr [.num 1, .num 2])]))
        (.obj [("plugins", .arr [.num 3])])).config "plugins"
      = some (.arr [.num 1, .num 2, .num 3])
    ∧ (jGet (updateOptions
        (updateOptions (initCtx [] [])
          (.obj [("x", .obj [("plugins", .arr [.num 1, .num 2])])]))
        (.obj [("x", .obj [("plugins", .arr [.num 3])])])).config "x").bind
          (fun v => jGet v "plugins")
      = some (.arr [.num 1, .num 2, .num 3]) := by
  constructor
  · exact updateOptions_array_concat.1
      (updateOptions (initCtx [] []) (.obj [("plugins", .arr [.num 1, .num 2])]))
      "plugins" [.num 1, .num 2] [.num 3] [("plugins", .arr [.num 3])]
      (by simp [updateOptions, initCtx, deepmerge_obj_obj, mergeInto,
        mergeIntoG, jHasKey, jLookup, setKey, isMergeableObject, jGet_obj])
      (by simp [keysNodup]) (by simp [jLookup])
  · exact updateOptions_array_concat.2
      (updateOptions (initCtx [] [])
        (.obj [("x", .obj [("plugins", .arr [.num 1, .num 2])])]))
      "x" "plugins" [("plugins", .arr [.num 1, .num 2])]
      [.num 1, .num 2] [.num 3]
      [("x", .obj [("plugins", .arr [.num 3])])]
      [("plugins", .arr [.num 3])]
      (by simp [updateOptions, initCtx, deepmerge_obj_obj, mergeInto,
        mergeIntoG, jHasKey, jLookup, setKey, isMergeableObject, jGet_obj])
      (by simp [jLookup]) (by simp [keysNodup]) (by simp [jLookup])
      (by simp [keysNodup]) (by simp [jLookup])

/-- C2: for a name with no registered definition (absent key or nullish
placeholder), `getConfigFilePath` succeeds with the `dist.config`
directory joined to the name and records the null placeholder, while
`getConfigFileDefinition` — and hence `getConfigFileContents` — fails in
that same state with the "was not defined" condition. -/
theorem configFile_undefined_spec :
    ∀ (c : Ctx) (name dc : String),
      nullishOpt (jLookup c.configFiles name) = true →
      jLookup c.dir "dist.config" = some dc →
      (getConfigFilePath c name).1 = .ok (pathJoin dc name)
      ∧ jLookup (getConfigFilePath c name).2.configFiles name = some .null
      ∧ (getConfigFileDefinition c name).1 =
          .error ("Configuration file '" ++ name ++ "' was not defined")
      ∧ (getConfigFileContents c name).1 =
          .error ("Configuration file '" ++ name ++ "' was not defined") := by
  intro c name dc hnull hdc
  have hfalsy : ∀ v, jLookup c.configFiles name = some v → truthy v = false := by
    intro v hv
    rw [hv] at hnull
    exact truthy_eq_false_of_nullish hnull
  have hpath : getConfigFilePath c name =
      (.ok (pathJoin dc name),
       { addUsed c name with
         configFiles := setKey (addUsed c name).configFiles name .null }) := by
    simp only [getConfigFilePath, addUsed_configFiles, hnull, if_true]
    have hdir : jLookup ({ addUsed c name with
        configFiles := setKey (addUsed c name).configFiles name .null } :
          Ctx).dir "dist.config" = some dc := by
      simpa [addUsed_dir] using hdc
    simp [getDirectory, hdir]
  refine ⟨?_, ?_, ?_, ?_⟩
  · rw [hpath]
  · rw [hpath]
    simp [jLookup_setKey_self]
  · rw [getConfigFileDefinition_falsy c name hfalsy]
  · have hfalsy2 : ∀ v,
        jLookup (addUsed c name).configFiles name = some v →
          truthy v = false := by
      rw [addUsed_configFiles]
      exact hfalsy
    simp only [getConfigFileContents,
      getConfigFileDefinition_falsy (addUsed c name) name hfalsy2]

/-- Witness for C2: in a context whose `dist.config` alias is `/dist` and
where `foo` was never registered, `getConfigFilePath "foo"` returns
`/dist/foo` and records the placeholder while the definition and contents
accessors fail. -/
theorem configFile_undefined_spec_witness :
    (getConfigFilePath (initCtx [] [("dist.config", "/dist")]) "foo").1 =
        .ok "/dist/foo"
    ∧ jLookup (getConfigFilePath (initCtx [] [("dist.config", "/dist")])
        "foo").2.configFiles "foo" = some .null
    ∧ (getConfigFileDefinition (initCtx [] [("dist.config", "/dist")])
        "foo").1 = .error "Configuration file 'foo' was not defined"
    ∧ (getConfigFileContents (initCtx [] [("dist.config", "/dist")])
        "foo").1 = .error "Configuration file 'foo' was not defined" :=
  configFile_undefined_spec (initCtx [] [("dist.config", "/dist")])
    "foo" "/dist" (by simp [initCtx, jLookup, nullishOpt])
    (by simp [initCtx, jLookup])

/-- C5: `getDirectory` fails with the "directory not defined" condition
while no path has been set for the alias; after `setDirectory(alias, p)`
it returns `p` itself, whatever was bound before (the universally
quantified prior context covers the unconditional overwrite). -/
theorem directory_spec :
    (∀ (c : Ctx) (als : String), jLookup c.dir als = none →
        getDirectory c als =
          .error ("Directory \"" ++ als ++ "\" was not defined"))
    ∧ (∀ (c : Ctx) (als p : String),
        getDirectory (setDirectory c als p) als = .ok p) := by
  constructor
  · intro c als h
    simp [getDirectory, h]
  · intro c als p
    simp [getDirectory, setDirectory, jLookup_setKey_self]

/-- Witness for C5: `getDirectory "missing"` fails on a fresh context;
after `setDirectory "missing" "/tmp"` it returns `/tmp`, also when
"missing" was previously bound to another path. -/
theorem directory_spec_witness :
    getDirectory (initCtx [] []) "missing" =
        .error "Directory \"missing\" was not defined"
    ∧ getDirectory (setDirectory (initCtx [] []) "missing" "/tmp")
        "missing" = .ok "/tmp"
    ∧ getDirectory
        (setDirectory (setDirectory (initCtx [] []) "missing" "/old")
          "missing" "/tmp") "missing" = .ok "/tmp" :=
  ⟨directory_spec.1 (initCtx [] []) "missing" rfl,
   directory_spec.2 (initCtx [] []) "missing" "/tmp",
   directory_spec.2 (setDirectory (initCtx [] []) "missing" "/old")
     "missing" "/tmp"⟩

/-- C6: `getArg` returns the stored value whenever it is neither null nor
undefined (so stored `0`, `false`, `""` come back as-is) and the default
exactly when the stored value is nullish or the key absent; `updateArgs`
overwrites keys directly (the stored value is the partial's value itself,
no recursive merging) and leaves other keys untouched. -/
theorem getArg_spec :
    (∀ (c : Ctx) (n : String) (d v : JVal), jLookup c.args n = some v →
        nullish v = false → getArg c n d = v)
    ∧ (∀ (c : Ctx) (n : String) (d v : JVal), jLookup c.args n = some v →
        nullish v = true → getArg c n d = d)
    ∧ (∀ (c : Ctx) (n : String) (d : JVal), jLookup c.args n = none →
        getArg c n d = d)
    ∧ (∀ (c : Ctx) (l : List (String × JVal)) (k : String) (v : JVal),
        keysNodup l → jLookup l k = some v →
        jLookup (updateArgs c l).args k = some v)
    ∧ (∀ (c : Ctx) (l : List (String × JVal)) (k : String),
        k ∉ l.map Prod.fst →
        jLookup (updateArgs c l).args k = jLookup c.args k) := by
  refine ⟨?_, ?_, ?_, ?_, ?_⟩
  · intro c n d v h hn
    simp [getArg, h, hn]
  · intro c n d v h hn
    simp [getArg, h, hn]
  · intro c n d h
    simp [getArg, h]
  · intro c l k v hnd h
    exact assignEntries_lookup_mem hnd h _
  · intro c l k h
    exact assignEntries_lookup_not_mem h _

/-- Witness for C6: a stored `0` is returned as-is, a stored null gives
the default, an absent key gives the default, and `updateArgs` overwrites
a key with an object verbatim while keeping other keys. -/
theorem getArg_spec_witness :
    getArg (updateArgs (initCtx [] []) [("n", .num 0)]) "n" (.num 7) =
        .num 0
    ∧ getArg (updateArgs (initCtx [] []) [("n", .null)]) "n" (.num 7) =
        .num 7
    ∧ getArg (initCtx [] []) "n" (.num 7) = .num 7
    ∧ jLookup (updateArgs (updateArgs (initCtx [] [])
        [("a", .num 1), ("n", .obj [("x", .num 1)])])
        [("n", .obj [("y", .num 2)])]).args "n" = some (.obj [("y", .num 2)])
    ∧ jLookup (updateArgs (updateArgs (initCtx [] [])
        [("a", .num 1), ("n", .obj [("x", .num 1)])])
        [("n", .obj [("y", .num 2)])]).args "a" = some (.num 1) := by
  refine ⟨?_, ?_, ?_, ?_, ?_⟩
  · exact getArg_spec.1 _ "n" (.num 7) (.num 0)
      (by simp [updateArgs, initCtx, assignEntries, setKey, jLookup]) rfl
  · exact getArg_spec.2.1 _ "n" (.num 7) .null
      (by simp [updateArgs, initCtx, assignEntries, setKey, jLookup]) rfl
  · exact getArg_spec.2.2.1 (initCtx [] []) "n" (.num 7) rfl
  · exact getArg_spec.2.2.2.1 _ [("n", .obj [("y", .num 2)])] "n"
      (.obj [("y", .num 2)]) (by simp [keysNodup]) (by simp [jLookup])
  · have h := getArg_spec.2.2.2.2
      (updateArgs (initCtx [] []) [("a", .num 1), ("n", .obj [("x", .num 1)])])
      [("n", .obj [("y", .num 2)])] "a" (by simp)
    rw [h]
    simp [updateArgs, initCtx, assignEntries, setKey, jLookup]

/-- The seed of `Object.assign({}, defaults, value)` looks up like the
defaults themselves (for defaults with distinct keys). -/
theorem assignEntries_nil_lookup (dflt : JVal) (k : String)
    (hnd : keysNodup (getEntries dflt)) :
    jLookup (assignEntries [] (getEntries dflt)) k = jGet dflt k := by
  cases dflt
  case obj dl =>
    simp only [getEntries, jGet_obj] at *
    cases h : jLookup dl k with
    | some v => exact assignEntries_lookup_mem hnd h []
    | none =>
      rw [assignEntries_lookup_not_mem ((jLookup_eq_none_iff dl k).mp h) []]
      rfl
  all_goals rfl

theorem isPlainObj_eq_false_of_truthy_eq_false {v : JVal}
    (h : truthy v = false) : isPlainObj v = false := by
  cases v <;> simp_all [truthy, isPlainObj]

/-- C3: when the stored value for a key is a plain object (not an array),
`getOption` returns `Object.assign({}, defaults, value)` — so a key reads
from the stored object when it has it and from the defaults otherwise;
when the stored value is not a plain object, it is returned if truthy and
the defaults are substituted if it is falsy (stored `0`, `""`, `false`
yield the default). -/
theorem getOption_spec :
    (∀ (c : Ctx) (k : String) (dflt : JVal) (l : List (String × JVal)),
        jGet c.config k = some (.obj l) →
        getOption c k dflt = objAssign dflt (.obj l))
    ∧ (∀ (c : Ctx) (k k2 : String) (dflt : JVal) (l : List (String × JVal))
        (v : JVal),
        jGet c.config k = some (.obj l) → keysNodup l →
        jLookup l k2 = some v →
        jGet (getOption c k dflt) k2 = some v)
    ∧ (∀ (c : Ctx) (k k2 : String) (dflt : JVal) (l : List (String × JVal)),
        jGet c.config k = some (.obj l) → keysNodup (getEntries dflt) →
        jLookup l k2 = none →
        jGet (getOption c k dflt) k2 = jGet dflt k2)
    ∧ (∀ (c : Ctx) (k : String) (dflt v : JVal),
        jGet c.config k = some v → isPlainObj v = false →
        truthy v = true → getOption c k dflt = v)
    ∧ (∀ (c : Ctx) (k : String) (dflt v : JVal),
        jGet c.config k = some v → truthy v = false →
        getOption c k dflt = dflt) := by
  refine ⟨?_, ?_, ?_, ?_, ?_⟩
  · intro c k dflt l h
    simp [getOption, h, isPlainObj]
  · intro c k k2 dflt l v h hnd hv
    simp only [getOption, h, isPlainObj, if_true]
    simp only [objAssign, getEntries, jGet_obj]
    exact assignEntries_lookup_mem hnd hv _
  · intro c k k2 dflt l h hnd hv
    simp only [getOption, h, isPlainObj, if_true]
    simp only [objAssign, getEntries, jGet_obj]
    rw [assignEntries_lookup_not_mem ((jLookup_eq_none_iff l k2).mp hv)]
    exact assignEntries_nil_lookup dflt k2 hnd
  · intro c k dflt v h hobj ht
    simp [getOption, h, hobj, ht]
  · intro c k dflt v h ht
    simp [getOption, h, isPlainObj_eq_false_of_truthy_eq_false ht, ht]

/-- Witness for C3: after `updateOptions {x: {b: 2}}`, `getOption "x"
{a: 1}` reads `b` from the stored object and `a` from the defaults (the
`{a:1, b:2}` overlay of the claim); a stored array comes back as-is; and
after `updateOptions {x: 0}` the default is returned. -/
theorem getOption_spec_witness :
    jGet (getOption (updateOptions (initCtx [] [])
        (.obj [("x", .obj [("b", .num 2)])])) "x" (.obj [("a", .num 1)]))
        "b" = some (.num 2)
    ∧ jGet (getOption (updateOptions (initCtx [] [])
        (.obj [("x", .obj [("b", .num 2)])])) "x" (.obj [("a", .num 1)]))
        "a" = some (.num 1)
    ∧ getOption (updateOptions (initCtx [] [])
        (.obj [("x", .arr [.num 1])])) "x" (.num 7) = .arr [.num 1]
    ∧ getOption (updateOptions (initCtx [] [])
        (.obj [("x", .num 0)])) "x" (.num 7) = .num 7 := by
  refine ⟨?_, ?_, ?_, ?_⟩
  · exact getOption_spec.2.1 _ "x" "b" (.obj [("a", .num 1)])
      [("b", .num 2)] (.num 2)
      (by simp [updateOptions, initCtx, deepmerge_obj_obj, mergeInto,
        mergeIntoG, jHasKey, jLookup, setKey, isMergeableObject, jGet_obj])
      (by simp [keysNodup]) (by simp [jLookup])
  · have h := getOption_spec.2.2.1 (updateOptions (initCtx [] [])
        (.obj [("x", .obj [("b", .num 2)])])) "x" "a" (.obj [("a", .num 1)])
        [("b", .num 2)]
      (by simp [updateOptions, initCtx, deepmerge_obj_obj, mergeInto,
        mergeIntoG, jHasKey, jLookup, setKey, isMergeableObject, jGet_obj])
      (by simp [keysNodup, getEntries]) (by simp [jLookup])
    rw [h]
    simp [jGet_obj, jLookup]
  · exact getOption_spec.2.2.2.1 _ "x" (.num 7) (.arr [.num 1])
      (by simp [updateOptions, initCtx, deepmerge_obj_obj, mergeInto,
        mergeIntoG, jHasKey, jLookup, setKey, isMergeableObject, jGet_obj])
      rfl rfl
  · exact getOption_spec.2.2.2.2 _ "x" (.num 7) (.num 0)
      (by simp [updateOptions, initCtx, deepmerge_obj_obj, mergeInto,
        mergeIntoG, jHasKey, jLookup, setKey, isMergeableObject, jGet_obj])
      (by simp [truthy])

theorem applyOp_usedFiles_mem (c : Ctx) (op : Op) (x : String) :
    x ∈ (applyOp c op).usedFiles ↔
      x ∈ c.usedFiles ∨ opUse op = some x := by
  cases op with
  | updateArgs l => simp [applyOp, updateArgs, opUse]
  | setDirectory a p => simp [applyOp, setDirectory, opUse]
  | updateOptions o => simp [applyOp, updateOptions, opUse]
  | setConfigFile n v => simp [applyOp, setConfigFile, opUse]
  | getConfigFilePath n =>
    simp [applyOp, opUse, getConfigFilePath_usedFiles, mem_addUsed, eq_comm]
  | getConfigFileDefinition n =>
    simp [applyOp, opUse, getConfigFileDefinition_state, mem_addUsed,
      eq_comm]
  | getConfigFileContents n =>
    simp [applyOp, opUse, getConfigFileContents_usedFiles, mem_addUsed,
      eq_comm]

theorem foldl_applyOp_usedFiles_mem (ops : List Op) :
    ∀ (c : Ctx) (x : String),
      x ∈ (ops.foldl applyOp c).usedFiles ↔
        x ∈ c.usedFiles ∨ ∃ op ∈ ops, opUse op = some x := by
  induction ops with
  | nil => simp
  | cons op rest ih =>
    intro c x
    simp only [List.foldl_cons]
    rw [ih]
    rw [applyOp_usedFiles_mem]
    simp only [List.mem_cons]
    constructor
    · rintro ((hx | hop) | ⟨op', hop', hu⟩)
      · exact Or.inl hx
      · exact Or.inr ⟨op, Or.inl rfl, hop⟩
      · exact Or.inr ⟨op', Or.inr hop', hu⟩
    · rintro (hx | ⟨op', (rfl | hop'), hu⟩)
      · exact Or.inl (Or.inl hx)
      · exact Or.inl (Or.inr hu)
      · exact Or.inr ⟨op', hop', hu⟩

theorem applyOp_usedFiles_nodup (c : Ctx) (op : Op)
    (h : c.usedFiles.Nodup) : (applyOp c op).usedFiles.Nodup := by
  cases op with
  | updateArgs l => exact h
  | setDirectory a p => exact h
  | updateOptions o => exact h
  | setConfigFile n v => exact h
  | getConfigFilePath n =>
    show (getConfigFilePath c n).2.usedFiles.Nodup
    rw [getConfigFilePath_usedFiles]
    exact addUsed_nodup _ _ h
  | getConfigFileDefinition n =>
    show (getConfigFileDefinition c n).2.usedFiles.Nodup
    rw [getConfigFileDefinition_state]
    exact addUsed_nodup _ _ h
  | getConfigFileContents n =>
    show (getConfigFileContents c n).2.usedFiles.Nodup
    rw [getConfigFileContents_usedFiles]
    exact addUsed_nodup _ _ h

theorem foldl_applyOp_usedFiles_nodup (ops : List Op) :
    ∀ (c : Ctx), c.usedFiles.Nodup → (ops.foldl applyOp c).usedFiles.Nodup := by
  induction ops with
  | nil => exact fun c h => h
  | cons op rest ih =>
    intro c h
    exact ih _ (applyOp_usedFiles_nodup c op h)

/-- C4: over any run starting from a fresh context, `getUsedConfigFiles`
holds a name exactly when some executed operation passed it to one of the
three accessors (path, definition, contents); no operation ever removes a
recorded name; the returned list never repeats a name; and the claim's
concrete scenario — path of "a", then definition and contents of a
registered "b" — yields exactly `["a", "b"]`. -/
theorem usedFiles_tracking :
    (∀ (env dir : List (String × String)) (ops : List Op) (x : String),
        x ∈ getUsedConfigFiles (ops.foldl applyOp (initCtx env dir)) ↔
          ∃ op ∈ ops, opUse op = some x)
    ∧ (∀ (c : Ctx) (op : Op) (x : String),
        x ∈ c.usedFiles → x ∈ (applyOp c op).usedFiles)
    ∧ (∀ (env dir : List (String × String)) (ops : List Op),
        (getUsedConfigFiles (ops.foldl applyOp (initCtx env dir))).Nodup)
    ∧ getUsedConfigFiles
        ([.getConfigFilePath "a", .setConfigFile "b" (.str "content"),
          .getConfigFileDefinition "b", .getConfigFileContents "b"].foldl
          applyOp (initCtx [] [("dist.config", "/d")])) = ["a", "b"] := by
  refine ⟨?_, ?_, ?_, ?_⟩
  · intro env dir ops x
    rw [getUsedConfigFiles, foldl_applyOp_usedFiles_mem]
    simp [initCtx]
  · intro c op x hx
    exact (applyOp_usedFiles_mem c op x).mpr (Or.inl hx)
  · intro env dir ops
    exact foldl_applyOp_usedFiles_nodup ops _ (by simp [initCtx])
  · rfl

/-- Witness for C4's monotonicity conjunct: a context that has already
recorded "a" still reports it after a further registry operation. -/
theorem usedFiles_tracking_witness :
    "a" ∈ ({ env := [], dir := [], config := .obj [], configFiles := [],
              usedFiles := ["a"], args := [] } : Ctx).usedFiles
    ∧ "a" ∈ (applyOp
        { env := [], dir := [], config := .obj [], configFiles := [],
          usedFiles := ["a"], args := [] }
        (.setConfigFile "b" (.str "content"))).usedFiles :=
  ⟨by simp,
   usedFiles_tracking.2.1
     { env := [], dir := [], config := .obj [], configFiles := [],
       usedFiles := ["a"], args := [] }
     (.setConfigFile "b" (.str "content")) "a" (by simp)⟩

/-- C9: `getConfigFilePath` records the name as used and stores the null
placeholder before it resolves the `dist.config` alias, so when that
alias is unset the call throws the directory error with the two mutations
already applied — the operation is not atomic on error. -/
theorem getConfigFilePath_not_atomic :
    ∀ (c : Ctx) (name : String),
      jLookup c.dir "dist.config" = none →
      nullishOpt (jLookup c.configFiles name) = true →
      (getConfigFilePath c name).1 =
          .error "Directory \"dist.config\" was not defined"
      ∧ name ∈ (getConfigFilePath c name).2.usedFiles
      ∧ jLookup (getConfigFilePath c name).2.configFiles name =
          some .null := by
  intro c name hdir hnull
  have hpath : getConfigFilePath c name =
      (.error "Directory \"dist.config\" was not defined",
       { addUsed c name with
         configFiles := setKey (addUsed c name).configFiles name .null }) := by
    simp only [getConfigFilePath, addUsed_configFiles, hnull, if_true]
    have hdir2 : jLookup ({ addUsed c name with
        configFiles := setKey (addUsed c name).configFiles name .null } :
          Ctx).dir "dist.config" = none := by
      simpa [addUsed_dir] using hdir
    simp [getDirectory, hdir2]
  refine ⟨?_, ?_, ?_⟩
  · rw [hpath]
  · rw [hpath]
    exact mem_addUsed_self c name
  · rw [hpath]
    simp [jLookup_setKey_self]

/-- Witness for C9: on a fresh context with no directories at all,
`getConfigFilePath "foo"` throws the directory error yet leaves "foo" in
the used set and a null placeholder in the registry. -/
theorem getConfigFilePath_not_atomic_witness :
    (getConfigFilePath (initCtx [] []) "foo").1 =
        .error "Directory \"dist.config\" was not defined"
    ∧ "foo" ∈ (getConfigFilePath (initCtx [] []) "foo").2.usedFiles
    ∧ jLookup (getConfigFilePath (initCtx [] []) "foo").2.configFiles
        "foo" = some .null :=
  getConfigFilePath_not_atomic (initCtx [] []) "foo" rfl rfl

/-- C10: `getConfigFileDefinition` fails with the very "was not defined"
error for any falsy stored definition, not only the null placeholder:
after `setConfigFile name d` with falsy `d`, the accessor throws exactly
the message it throws for a name that was never registered. -/
theorem getConfigFileDefinition_falsy_registered :
    ∀ (c : Ctx) (name : String) (d : JVal), truthy d = false →
      (getConfigFileDefinition (setConfigFile c name d) name).1 =
        .error ("Configuration file '" ++ name ++ "' was not defined") := by
  intro c name d hd
  have hfalsy : ∀ v,
      jLookup (setConfigFile c name d).configFiles name = some v →
        truthy v = false := by
    intro v hv
    simp only [setConfigFile, jLookup_setKey_self] at hv
    obtain rfl : d = v := by injection hv
    exact hd
  rw [getConfigFileDefinition_falsy _ name hfalsy]

/-- Witness for C10: registering the empty string, the number 0 or false
as a definition makes the definition accessor throw exactly as for an
unregistered name. -/
theorem getConfigFileDefinition_falsy_registered_witness :
    (getConfigFileDefinition (setConfigFile (initCtx [] []) "foo" (.str ""))
        "foo").1 = .error "Configuration file 'foo' was not defined"
    ∧ (getConfigFileDefinition (setConfigFile (initCtx [] []) "foo" (.num 0))
        "foo").1 = .error "Configuration file 'foo' was not defined"
    ∧ (getConfigFileDefinition
        (setConfigFile (initCtx [] []) "foo" (.bool false)) "foo").1 =
          .error "Configuration file 'foo' was not defined" :=
  ⟨getConfigFileDefinition_falsy_registered (initCtx [] []) "foo"
      (.str "") rfl,
   getConfigFileDefinition_falsy_registered (initCtx [] []) "foo"
      (.num 0) (by simp [truthy]),
   getConfigFileDefinition_falsy_registered (initCtx [] []) "foo"
      (.bool false) rfl⟩

/-- C7: an action invocation whose run stage rejects (its preRun being
absent or resolved) never invokes postRun, skips it, and makes the CLI
layer terminate the process with exit status 1 — a non-zero status.  The
stage sequencing is modelled from the spec (the lifecycle executor's
implementation is not among the sources); the exit behaviour is the catch
handler of src/src/entry-cli.ts. -/
theorem run_failure_skips_postRun :
    ∀ (a : ActionOutcomes) (e : String),
      (a.preRun = none ∨ a.preRun = some (.ok ())) →
      a.run = .error e →
      (cliInvoke a).1.postInvoked = false
      ∧ (cliInvoke a).2 = some 1
      ∧ ∀ n, (cliInvoke a).2 = some n → n ≠ 0 := by
  intro a e hpre hrun
  have hinv : invokeAction a =
      ({ preInvoked := a.preRun.isSome, runInvoked := true,
         postInvoked := false }, .error e) := by
    rcases hpre with h | h <;> simp [invokeAction, h, hrun]
  refine ⟨?_, ?_, ?_⟩
  · simp [cliInvoke, hinv]
  · simp [cliInvoke, hinv, cliExitCode]
  · intro n hn
    simp [cliInvoke, hinv, cliExitCode] at hn
    omega

/-- Witness for C7: an action with a resolving preRun, a rejecting run
and a defined postRun leaves postRun uninvoked and exits with 1. -/
theorem run_failure_skips_postRun_witness :
    (cliInvoke { preRun := some (.ok ()), run := .error "boom",
                 postRun := some (.ok ()) }).1.postInvoked = false
    ∧ (cliInvoke { preRun := some (.ok ()), run := .error "boom",
                   postRun := some (.ok ()) }).2 = some 1 := by
  have h := run_failure_skips_postRun
    { preRun := some (.ok ()), run := .error "boom",
      postRun := some (.ok ()) } "boom" (Or.inr rfl) rfl
  exact ⟨h.1, h.2.1⟩

/-- Counterexample for C8: the claim reads every spawn default —
including the environment snapshot — as individually *overridden* by the
corresponding key of `options` when supplied.  With context environment
`{A: "1"}` and `options = {env: {B: "2"}}`, the spawn request's `env` is
the deep merge `{A: "1", B: "2"}`, not the supplied `{B: "2"}`: the env
default is not replaced by the corresponding options key. -/
theorem exec_env_override_counterexample :
    (exec (initCtx [("A", "1")] [("project", "/p")]) "tool" none
        (some (.obj [("env", .obj [("B", .str "2")])]))).1 =
      [.log "debug" "Invoking tool ",
       .spawn "tool" []
         (.obj [("localDir", .str "/p"), ("preferLocal", .bool true),
                ("stdio", .str "inherit"),
                ("env", .obj [("A", .str "1"), ("B", .str "2")])])]
    ∧ (JVal.obj [("A", .str "1"), ("B", .str "2")]) ≠
        .obj [("B", .str "2")] := by
  constructor
  · simp [exec, getDirectory, initCtx, jLookup, execDefaults, envObj,
      deepmerge_obj_obj, mergeInto, mergeIntoG, jHasKey, jGetD, setKey,
      isMergeableObject, String.intercalate]
  · intro h
    injection h with h1
    simp at h1

/-- C8 (amended): the spawn request defaults `localDir` to the `project`
alias path, `preferLocal` to true, `stdio` to "inherit" and `env` to the
context's environment snapshot, and the command line is logged at debug
level before the spawn request is built (first two conjuncts, for absent
and supplied options); a supplied option key holding a non-mergeable
value — which covers the `localDir`, `preferLocal` and `stdio` defaults —
replaces the default (third conjunct); a supplied `env` object is
deep-merged over the environment snapshot rather than replacing it
(fourth conjunct); with no `env` key supplied the snapshot is carried
unchanged (fifth conjunct). -/
theorem exec_spec :
    (∀ (c : Ctx) (b : String) (args : Option (List String)) (p : String),
        jLookup c.dir "project" = some p →
        exec c b args none =
          ([.log "debug" ("Invoking " ++ b ++ " " ++
              String.intercalate " " (args.getD [])),
            .spawn b (args.getD []) (execDefaults c p)], .ok ()))
    ∧ (∀ (c : Ctx) (b : String) (args : Option (List String)) (p : String)
          (ol : List (String × JVal)),
        jLookup c.dir "project" = some p →
        exec c b args (some (.obj ol)) =
          ([.log "debug" ("Invoking " ++ b ++ " " ++
              String.intercalate " " (args.getD [])),
            .spawn b (args.getD [])
              (deepmerge (execDefaults c p) (.obj ol))], .ok ()))
    ∧ (∀ (c : Ctx) (p : String) (ol : List (String × JVal)) (k : String)
          (sv : JVal),
        keysNodup ol → jLookup ol k = some sv →
        isMergeableObject sv = false →
        jGet (deepmerge (execDefaults c p) (.obj ol)) k = some sv)
    ∧ (∀ (c : Ctx) (p : String) (ol el : List (String × JVal)),
        keysNodup ol → jLookup ol "env" = some (.obj el) →
        jGet (deepmerge (execDefaults c p) (.obj ol)) "env" =
          some (deepmerge (envObj c.env) (.obj el)))
    ∧ (∀ (c : Ctx) (p : String) (ol : List (String × JVal)),
        "env" ∉ ol.map Prod.fst →
        jGet (deepmerge (execDefaults c p) (.obj ol)) "env" =
          some (envObj c.env)) := by
  refine ⟨?_, ?_, ?_, ?_, ?_⟩
  · intro c b args p hp
    have hmerge : deepmerge (execDefaults c p) (.obj []) = execDefaults c p := by
      rw [execDefaults, deepmerge_obj_obj, mergeInto_nil]
    simp [exec, getDirectory, hp, hmerge]
  · intro c b args p ol hp
    simp [exec, getDirectory, hp]
  · intro c p ol k sv hnd hk hnm
    rw [execDefaults, deepmerge_obj_obj, jGet_obj, mergeInto,
      mergeIntoG_lookup_mem deepmerge _ hnd hk]
    simp [hnm]
  · intro c p ol el hnd henv
    rw [execDefaults, deepmerge_obj_obj, jGet_obj, mergeInto,
      mergeIntoG_lookup_mem deepmerge _ hnd henv]
    have hhas : jHasKey
        (JVal.obj [("localDir", .str p), ("preferLocal", .bool true),
          ("stdio", .str "inherit"), ("env", envObj c.env)]) "env" = true := by
      simp [jHasKey, jLookup]
    have hgetd : jGetD
        (JVal.obj [("localDir", .str p), ("preferLocal", .bool true),
          ("stdio", .str "inherit"), ("env", envObj c.env)]) "env" =
        envObj c.env := by
      simp [jGetD, jLookup]
    simp [hhas, hgetd, isMergeableObject]
  · intro c p ol henv
    rw [execDefaults, deepmerge_obj_obj, jGet_obj, mergeInto,
      mergeIntoG_lookup_not_mem deepmerge _ henv]
    simp [jLookup]

/-- Witness for C8 (amended): with context env `{A: "1"}` and project
directory `/p` — the log event precedes the spawn event; a supplied
`preferLocal: false` replaces the default; a supplied env object is
deep-merged over the snapshot; and with no env key the snapshot is
carried. -/
theorem exec_spec_witness :
    exec (initCtx [("A", "1")] [("project", "/p")]) "tool" (some ["x"])
        none =
      ([.log "debug" "Invoking tool x",
        .spawn "tool" ["x"]
          (execDefaults (initCtx [("A", "1")] [("project", "/p")]) "/p")],
       .ok ())
    ∧ jGet (deepmerge
        (execDefaults (initCtx [("A", "1")] [("project", "/p")]) "/p")
        (.obj [("preferLocal", .bool false)])) "preferLocal" =
        some (.bool false)
    ∧ jGet (deepmerge
        (execDefaults (initCtx [("A", "1")] [("project", "/p")]) "/p")
        (.obj [("env", .obj [("B", .str "2")])])) "env" =
        some (deepmerge (envObj [("A", "1")]) (.obj [("B", .str "2")]))
    ∧ jGet (deepmerge
        (execDefaults (initCtx [("A", "1")] [("project", "/p")]) "/p")
        (.obj [("stdio", .str "pipe")])) "env" =
        some (envObj [("A", "1")]) := by
  refine ⟨?_, ?_, ?_, ?_⟩
  · have h := exec_spec.1 (initCtx [("A", "1")] [("project", "/p")])
      "tool" (some ["x"]) "/p" (by simp [initCtx, jLookup])
    simpa [String.intercalate] using h
  · exact exec_spec.2.2.1 _ "/p" [("preferLocal", .bool false)]
      "preferLocal" (.bool false) (by simp [keysNodup])
      (by simp [jLookup]) rfl
  · exact exec_spec.2.2.2.1 _ "/p" [("env", .obj [("B", .str "2")])]
      [("B", .str "2")] (by simp [keysNodup]) (by simp [jLookup])
  · exact exec_spec.2.2.2.2 _ "/p" [("stdio", .str "pipe")] (by simp)

end Eilos
